import Mathlib

/-!
Verification of the taxonomy-construction pipeline of
`generate_taxonomy_direct.py`: the rule-based skill classifier
(`extract_skills_from_outcome`), the Bloom-level classifier
(`determine_blooms_level`), the skill consolidator
(`consolidate_similar_skills`, `determine_proficiency_levels`), the
taxonomy builder (`build_taxonomy_structure`) and the extractor driver
(`analyze_learning_outcomes_direct`).

Python dictionaries with possibly-missing keys are embedded as structures
with `Option` fields; `dict.get(k, d)` becomes `Option.getD`.  Python
strings are Lean `String`s, `x in s` (substring test) is `strContains`,
`s.lower()` maps `Char.toLower` over the characters, `s[:n]` is `pyTake`,
and `s.strip()` is `pyStrip`.  A Python `set` whose sorted element list is
what the code ultimately uses is embedded as a sorted duplicate-free list
(`sortedSet`), sorted by the code-point order on strings, which is the
order Python's `sorted` uses.
-/

/-- Substring test: Python `needle in hay` — prefix check at each suffix. -/
def charsPrefix : List Char → List Char → Bool
  | [], _ => true
  | _ :: _, [] => false
  | a :: as, b :: bs => a == b && charsPrefix as bs

/-- `charsInfix needle l` : does `needle` occur contiguously inside `l`? -/
def charsInfix (needle : List Char) : List Char → Bool
  | [] => needle.isEmpty
  | c :: cs => charsPrefix needle (c :: cs) || charsInfix needle cs

/-- Python `needle in hay` for strings. -/
def strContains (hay needle : String) : Bool :=
  charsInfix needle.data hay.data

/-- Python `s.lower()` (ASCII-faithful). -/
def strLower (s : String) : String :=
  String.mk (s.data.map Char.toLower)

/-- Python `s[:n]`. -/
def pyTake (n : Nat) (s : String) : String :=
  String.mk (s.data.take n)

/-- Python `s.strip()`: drop leading and trailing whitespace. -/
def pyStrip (s : String) : String :=
  String.mk (((s.data.dropWhile Char.isWhitespace).reverse.dropWhile
    Char.isWhitespace).reverse)

/-- Python `len(s)`. -/
def pyLen (s : String) : Nat := s.data.length

/-- Helper for `dedupFS`: keep the elements not yet `seen`, first
occurrences only. -/
def dedupFSAux (seen : List String) : List String → List String
  | [] => []
  | x :: xs =>
      if x ∈ seen then dedupFSAux seen xs
      else x :: dedupFSAux (x :: seen) xs

/-- First-seen deduplication: the key order of an insertion-ordered dict
(`defaultdict`) built by one left-to-right pass over `l`. -/
def dedupFS (l : List String) : List String :=
  dedupFSAux [] l

/-- Lexicographic strict order on char lists by code point: the order
Python's `sorted` uses on strings. -/
def charsLt : List Char → List Char → Bool
  | [], [] => false
  | [], _ :: _ => true
  | _ :: _, [] => false
  | a :: as, b :: bs => a < b || (a == b && charsLt as bs)

/-- Python `a < b` on strings. -/
def strLt (a b : String) : Bool := charsLt a.data b.data

/-- Insert `x` into a list sorted ascending by `strLt`. -/
def insertStr (x : String) : List String → List String
  | [] => [x]
  | y :: ys => if strLt y x then y :: insertStr x ys else x :: y :: ys

/-- Insertion sort ascending by `strLt`: Python `sorted`. -/
def sortStr (l : List String) : List String := l.foldr insertStr []

/-- Python `sorted(list(set(l)))`: sort the distinct elements ascending. -/
def sortedSet (l : List String) : List String :=
  sortStr (dedupFS l)

-- A quick sanity example for the string helpers.
example : strContains "hello world" "lo wo" = true := by decide
example : strContains "abc" "" = true := by decide
example : strLower "AbC" = "abc" := by decide
example : pyStrip "  hi  " = "hi" := by decide
example : dedupFS ["a", "b", "a", "c", "b"] = ["a", "b", "c"] := by decide
example : sortedSet ["b", "a", "b"] = ["a", "b"] := by decide
example : strLt "Analyze" "Apply" = true := by decide

/-! ## Data model

`SkillRec` embeds the skill dictionaries built by
`extract_skills_from_outcome`; all fields are `Option` because the
consolidator and taxonomy builder read them with `dict.get` defaults. -/

structure SkillRec where
  skill_name : Option String
  description : Option String
  category : Option String
  skill_type : Option String
  blooms_level : Option String
  keywords : Option (List String)
  module : Option String
deriving DecidableEq, Repr

/-- An input module record (`modules` entries loaded from JSON); named
`ModuleRec` because `Module` is taken by Mathlib. -/
structure ModuleRec where
  code : Option String
  title : Option String
  level : Option Int
  learning_outcomes : Option (List String)
deriving DecidableEq, Repr

/-- `module.copy()` with the added `extracted_skills` key. -/
structure EnrichedModule where
  base : ModuleRec
  extracted_skills : List SkillRec
deriving DecidableEq, Repr

/-- The dictionary returned by `analyze_learning_outcomes_direct`. -/
structure AnalysisResult where
  modules : List EnrichedModule
  all_skills : List SkillRec
  total_modules : Nat
  total_skills : Nat
deriving DecidableEq, Repr

/-- A consolidated skill produced by `consolidate_similar_skills`. -/
structure ConsolidatedSkill where
  name : String
  proficiency_levels : List String
  appears_in_modules : List String
  bloom_levels : List String
deriving DecidableEq, Repr

/-- A sub-category node of the taxonomy. -/
structure SubCategory where
  name : String
  description : String
  skills : List ConsolidatedSkill
deriving DecidableEq, Repr

/-- A domain node of the taxonomy. -/
structure Domain where
  name : String
  description : String
  sub_categories : List SubCategory
deriving DecidableEq, Repr

/-- The taxonomy returned by `build_taxonomy_structure`. -/
structure Taxonomy where
  domains : List Domain
deriving DecidableEq, Repr

/-! ## Bloom-level classifier (`determine_blooms_level`) -/

def rememberVerbs : List String :=
  ["define", "list", "name", "identify", "recall", "recognize"]

def understandVerbs : List String :=
  ["understand", "comprehend", "explain", "describe", "summarize",
   "interpret", "classify"]

def applyVerbs : List String :=
  ["apply", "use", "solve", "implement", "execute", "carry out", "write",
   "run"]

def analyzeVerbs : List String :=
  ["analyze", "examine", "compare", "contrast", "differentiate", "organize",
   "test", "debug"]

def evaluateVerbs : List String :=
  ["evaluate", "assess", "judge", "critique", "justify", "argue", "defend"]

def createVerbs : List String :=
  ["create", "design", "develop", "construct", "build", "formulate",
   "generate", "plan"]

/-- `determine_blooms_level(text)`: first matching level of the six checks,
in source order, defaulting to `"Apply"`. -/
def determine_blooms_level (text : String) : String :=
  if rememberVerbs.any (fun v => strContains text v) then "Remember"
  else if understandVerbs.any (fun v => strContains text v) then "Understand"
  else if applyVerbs.any (fun v => strContains text v) then "Apply"
  else if analyzeVerbs.any (fun v => strContains text v) then "Analyze"
  else if evaluateVerbs.any (fun v => strContains text v) then "Evaluate"
  else if createVerbs.any (fun v => strContains text v) then "Create"
  else "Apply"

/-! ## Skill-name and keyword helpers -/

/-- `extract_main_skill(outcome, context)`. -/
def extract_main_skill (outcome context : String) : String :=
  let outcome := pyStrip outcome
  if pyLen outcome < 60 then outcome
  else
    let first_part := String.mk
      ((outcome.data.takeWhile (fun c => c ≠ ',')).takeWhile (fun c => c ≠ ';'))
    if pyLen first_part < 80 then first_part
    else context ++ " - " ++ pyTake 40 outcome ++ "..."

/-- `extract_keywords(text, candidates)`. -/
def extract_keywords (text : String) (candidates : List String) : List String :=
  candidates.filter (fun keyword => strContains text keyword)

/-! ## The eight classification rule trigger lists -/

def progTrigger : List String :=
  ["program", "code", "compile", "debug", "algorithm", "data structure",
   "function", "method", "procedure"]

def designTrigger : List String :=
  ["design", "develop", "create", "build", "construct"]

def understandTrigger : List String :=
  ["understand", "comprehend", "aware", "familiar", "describe", "explain"]

def analysisTrigger : List String :=
  ["test", "debug", "evaluate", "analyze", "assess"]

def architectureTrigger : List String :=
  ["architecture", "organization", "system", "structure"]

def theoryTrigger : List String :=
  ["logic", "proof", "mathematical", "formal", "automata"]

def problemTrigger : List String :=
  ["problem", "solve", "solution"]

def dataTrigger : List String :=
  ["data", "information", "database"]

/-- `skills.append(record)` guarded by an `if`: one conditional rule of
`extract_skills_from_outcome`. -/
def condAppend (c : Bool) (skills : List SkillRec) (r : SkillRec) :
    List SkillRec :=
  if c then skills ++ [r] else skills

/-- `extract_skills_from_outcome(outcome, level, module_code)`: test the
eight keyword rules against the lower-cased outcome, appending one skill
record per firing rule, with the fallback "General" record when no rule
fires.  (`level` is a parameter of the source function but is unused in
its body.) -/
def extract_skills_from_outcome (outcome : String) (level : Int)
    (module_code : String) : List SkillRec :=
  let _ := level
  let outcome_lower := strLower outcome
  let blooms_level := determine_blooms_level outcome_lower
  let mk : String → String → String → List String → SkillRec :=
    fun context category skill_type candidates =>
      { skill_name := some (extract_main_skill outcome context)
        description := some (pyTake 100 outcome)
        category := some category
        skill_type := some skill_type
        blooms_level := some blooms_level
        keywords := some (extract_keywords outcome_lower candidates)
        module := some module_code }
  let fire := fun (ws : List String) => ws.any (fun w => strContains outcome_lower w)
  let skills : List SkillRec := []
  let skills := condAppend (fire progTrigger) skills
    (mk "Programming" "Technical" "Programming"
      ["program", "code", "function", "algorithm"])
  let skills := condAppend (fire designTrigger) skills
    (mk "Design & Development" "Technical" "Software Design"
      ["design", "develop", "architecture"])
  let skills := condAppend (fire understandTrigger) skills
    (mk "Conceptual Understanding" "Cognitive" "Comprehension"
      ["understand", "knowledge", "theory"])
  let skills := condAppend (fire analysisTrigger) skills
    (mk "Analysis & Testing" "Technical" "Testing & Debugging"
      ["test", "debug", "analyze"])
  let skills := condAppend (fire architectureTrigger) skills
    (mk "Systems & Architecture" "Domain-Specific" "Computer Architecture"
      ["architecture", "system", "hardware"])
  let skills := condAppend (fire theoryTrigger) skills
    (mk "Theoretical Foundations" "Domain-Specific" "Theory & Mathematics"
      ["logic", "proof", "mathematical"])
  let skills := condAppend (fire problemTrigger) skills
    (mk "Problem Solving" "Cognitive" "Problem-Solving"
      ["problem", "solve", "solution"])
  let skills := condAppend (fire dataTrigger) skills
    (mk "Data Management" "Technical" "Data Science"
      ["data", "information", "analysis"])
  if skills.isEmpty then
    [{ skill_name := some (pyTake 50 outcome)
       description := some (pyTake 100 outcome)
       category := some "General"
       skill_type := some "General Competency"
       blooms_level := some blooms_level
       keywords := some []
       module := some module_code }]
  else skills

/-! ## Consolidator (`consolidate_similar_skills`,
`determine_proficiency_levels`) -/

/-- `skill.get('skill_name', 'Unknown')`. -/
def recName (s : SkillRec) : String := s.skill_name.getD "Unknown"

/-- `skill.get('module', 'Unknown')`. -/
def recModule (s : SkillRec) : String := s.module.getD "Unknown"

/-- `skill.get('blooms_level', 'Unknown')`. -/
def recBloom (s : SkillRec) : String := s.blooms_level.getD "Unknown"

/-- `blooms_hierarchy.get(b, 3)`: the source's dict lookup with default 3. -/
def bloomRank (b : String) : Nat :=
  if b = "Remember" then 1
  else if b = "Understand" then 2
  else if b = "Apply" then 3
  else if b = "Analyze" then 4
  else if b = "Evaluate" then 5
  else if b = "Create" then 6
  else 3

/-- `determine_proficiency_levels(blooms_levels)`.  The Python argument is
a set; it is embedded as the list of its elements.  (`max` in Python
raises on an empty set; the source only calls this on non-empty groups,
and the `0` initial value below is never the maximum there.) -/
def determine_proficiency_levels (blooms_levels : List String) : List String :=
  let max_level := (blooms_levels.map bloomRank).foldl Nat.max 0
  if max_level ≤ 2 then ["Beginner"]
  else if max_level ≤ 4 then ["Beginner", "Intermediate"]
  else ["Beginner", "Intermediate", "Advanced"]

/-- `consolidate_similar_skills(skills)`: group by `skill_name` (first-seen
key order of the insertion-ordered `defaultdict`), then emit one record
per name. -/
def consolidate_similar_skills (skills : List SkillRec) : List ConsolidatedSkill :=
  (dedupFS (skills.map recName)).map (fun name =>
    let group := skills.filter (fun s => recName s == name)
    let blooms_set := sortedSet (group.map recBloom)
    { name := name
      proficiency_levels := determine_proficiency_levels blooms_set
      appears_in_modules := sortedSet (group.map recModule)
      bloom_levels := blooms_set })

/-! ## Taxonomy builder (`build_taxonomy_structure`) -/

/-- `skill.get('category', 'General')`. -/
def recCategory (s : SkillRec) : String := s.category.getD "General"

/-- `skill.get('skill_type', 'General')`. -/
def recSkillType (s : SkillRec) : String := s.skill_type.getD "General"

/-- `build_taxonomy_structure(all_skills)`: a two-level group-by (category,
then skill_type), both levels in first-encounter order, consolidating each
bucket. -/
def build_taxonomy_structure (all_skills : List SkillRec) : Taxonomy :=
  { domains :=
      (dedupFS (all_skills.map recCategory)).map (fun category =>
        let catSkills := all_skills.filter (fun s => recCategory s == category)
        { name := category
          description := category ++ " competencies"
          sub_categories :=
            (dedupFS (catSkills.map recSkillType)).map (fun skill_type =>
              { name := skill_type
                description :=
                  skill_type ++ " skills in " ++ category ++ " category"
                skills := consolidate_similar_skills
                  (catSkills.filter (fun s => recSkillType s == skill_type)) }) }) }

/-! ## Extractor (`analyze_learning_outcomes_direct`) -/

/-- All skill records of one module: the classifier run over each outcome
in order, concatenated. -/
def moduleSkills (m : ModuleRec) : List SkillRec :=
  ((m.learning_outcomes.getD []).map (fun o =>
    extract_skills_from_outcome o (m.level.getD 0) (m.code.getD "Unknown"))).flatten

/-- The loop of `analyze_learning_outcomes_direct`, producing the enriched
module list and the flat global skill list in input order. -/
def analyzeGo : List ModuleRec → List EnrichedModule × List SkillRec
  | [] => ([], [])
  | m :: rest =>
      let p := analyzeGo rest
      if (m.learning_outcomes.getD []).isEmpty then p
      else (⟨m, moduleSkills m⟩ :: p.1, moduleSkills m ++ p.2)

/-- `analyze_learning_outcomes_direct(modules)`. -/
def analyze_learning_outcomes_direct (modules : List ModuleRec) : AnalysisResult :=
  let p := analyzeGo modules
  { modules := p.1
    all_skills := p.2
    total_modules := p.1.length
    total_skills := p.2.length }

/-! ## Order lemmas for the code-point order `charsLt` / `strLt` -/

theorem charsLt_irrefl (l : List Char) : charsLt l l = false := by
  induction l with
  | nil => rfl
  | cons a as ih => simp [charsLt, ih]

theorem charsLt_asymm :
    ∀ {a b : List Char}, charsLt a b = true → charsLt b a = false
  | [], [], h => by simp [charsLt] at h
  | [], _ :: _, _ => rfl
  | _ :: _, [], h => by simp [charsLt] at h
  | x :: xs, y :: ys, h => by
      simp only [charsLt, Bool.or_eq_true, Bool.and_eq_true, decide_eq_true_eq,
        beq_iff_eq] at h ⊢
      rcases h with h | ⟨rfl, h⟩
      · simp only [Bool.or_eq_false_iff, Bool.and_eq_false_iff]
        constructor
        · simp [not_lt_of_gt h]
        · left
          simp [(ne_of_lt h).symm]
      · simp [lt_irrefl, charsLt_asymm h]

theorem charsLt_trans :
    ∀ {a b c : List Char}, charsLt a b = true → charsLt b c = true →
      charsLt a c = true
  | [], [], _, h1, _ => by simp [charsLt] at h1
  | [], _ :: _, [], _, h2 => by simp [charsLt] at h2
  | [], _ :: _, _ :: _, _, _ => rfl
  | _ :: _, [], _, h1, _ => by simp [charsLt] at h1
  | _ :: _, _ :: _, [], _, h2 => by simp [charsLt] at h2
  | x :: xs, y :: ys, z :: zs, h1, h2 => by
      simp only [charsLt, Bool.or_eq_true, Bool.and_eq_true,
        decide_eq_true_eq, beq_iff_eq] at h1 h2 ⊢
      rcases h1 with h1 | ⟨rfl, h1⟩
      · rcases h2 with h2 | ⟨rfl, h2⟩
        · exact Or.inl (lt_trans h1 h2)
        · exact Or.inl h1
      · rcases h2 with h2 | ⟨rfl, h2⟩
        · exact Or.inl h2
        · exact Or.inr ⟨rfl, charsLt_trans h1 h2⟩

theorem charsLt_connex :
    ∀ {a b : List Char}, charsLt a b = false → charsLt b a = false → a = b
  | [], [], _, _ => rfl
  | [], _ :: _, h1, _ => by cases h1
  | _ :: _, [], _, h2 => by cases h2
  | x :: xs, y :: ys, h1, h2 => by
      simp only [charsLt, Bool.or_eq_false_iff, Bool.and_eq_false_iff,
        decide_eq_false_iff_not, beq_eq_false_iff_ne, ne_eq] at h1 h2
      obtain ⟨hxy, h1'⟩ := h1
      obtain ⟨hyx, h2'⟩ := h2
      have hxy' : x = y := le_antisymm (not_lt.mp hyx) (not_lt.mp hxy)
      subst hxy'
      rcases h1' with h | h
      · exact absurd rfl h
      · rcases h2' with h' | h'
        · exact absurd rfl h'
        · rw [charsLt_connex h h']

theorem strLt_irrefl (a : String) : strLt a a = false := charsLt_irrefl _

theorem strLt_asymm {a b : String} (h : strLt a b = true) : strLt b a = false :=
  charsLt_asymm h

theorem strLt_trans {a b c : String} (h1 : strLt a b = true)
    (h2 : strLt b c = true) : strLt a c = true :=
  charsLt_trans h1 h2

theorem strLt_connex {a b : String} (h1 : strLt a b = false)
    (h2 : strLt b a = false) : a = b := by
  cases a with
  | mk da =>
    cases b with
    | mk db =>
      have : da = db := charsLt_connex h1 h2
      rw [this]

/-- Transitivity of the reflexive order `fun a b => strLt b a = false`. -/
theorem strLe_trans {a b c : String} (h1 : strLt b a = false)
    (h2 : strLt c b = false) : strLt c a = false := by
  cases hca : strLt c a with
  | false => rfl
  | true =>
      cases hbc : strLt b c with
      | true =>
          have : strLt b a = true := strLt_trans hbc hca
          rw [this] at h1
          exact h1
      | false =>
          have hbceq : b = c := strLt_connex hbc h2
          subst hbceq
          rw [hca] at h1
          exact h1

/-! ## Lemmas about `insertStr`, `sortStr`, `dedupFS` -/

theorem insertStr_perm (x : String) :
    ∀ l : List String, List.Perm (insertStr x l) (x :: l)
  | [] => List.Perm.refl _
  | y :: ys => by
      simp only [insertStr]
      split
      · exact ((insertStr_perm x ys).cons y).trans (List.Perm.swap x y ys)
      · exact List.Perm.refl _

theorem sortStr_perm : ∀ l : List String, List.Perm (sortStr l) l
  | [] => List.Perm.refl _
  | x :: xs => by
      simp only [sortStr, List.foldr_cons]
      exact (insertStr_perm x _).trans ((sortStr_perm xs).cons x)

theorem mem_sortStr {a : String} {l : List String} :
    a ∈ sortStr l ↔ a ∈ l :=
  (sortStr_perm l).mem_iff

theorem nodup_sortStr {l : List String} (h : l.Nodup) : (sortStr l).Nodup :=
  (sortStr_perm l).nodup_iff.mpr h

theorem pairwise_le_insertStr {x : String} :
    ∀ {l : List String}, l.Pairwise (fun a b => strLt b a = false) →
      (insertStr x l).Pairwise (fun a b => strLt b a = false)
  | [], _ => by simp [insertStr]
  | y :: ys, h => by
      rw [List.pairwise_cons] at h
      obtain ⟨hy, hys⟩ := h
      simp only [insertStr]
      split
      · rename_i hyx
        rw [List.pairwise_cons]
        refine ⟨?_, pairwise_le_insertStr hys⟩
        intro z hz
        rcases List.mem_cons.mp ((insertStr_perm x ys).mem_iff.mp hz) with
          rfl | hz
        · exact strLt_asymm hyx
        · exact hy z hz
      · rename_i hyx
        have hyx' : strLt y x = false := by simpa using hyx
        rw [List.pairwise_cons]
        refine ⟨?_, List.pairwise_cons.mpr ⟨hy, hys⟩⟩
        intro z hz
        rcases List.mem_cons.mp hz with rfl | hz
        · exact hyx'
        · exact strLe_trans hyx' (hy z hz)

theorem pairwise_le_sortStr : ∀ l : List String,
    (sortStr l).Pairwise (fun a b => strLt b a = false)
  | [] => by simp [sortStr]
  | x :: xs => by
      simp only [sortStr, List.foldr_cons]
      exact pairwise_le_insertStr (pairwise_le_sortStr xs)

theorem mem_dedupFSAux (a : String) :
    ∀ (l seen : List String), a ∈ dedupFSAux seen l ↔ a ∈ l ∧ a ∉ seen
  | [], seen => by simp [dedupFSAux]
  | x :: xs, seen => by
      simp only [dedupFSAux]
      split
      · rename_i hx
        rw [mem_dedupFSAux a xs seen]
        constructor
        · rintro ⟨h1, h2⟩
          exact ⟨List.mem_cons_of_mem x h1, h2⟩
        · rintro ⟨h1, h2⟩
          rcases List.mem_cons.mp h1 with rfl | h1
          · exact absurd hx h2
          · exact ⟨h1, h2⟩
      · rename_i hx
        by_cases hax : a = x
        · subst hax
          simp [hx]
        · have hns : (a ∉ x :: seen) ↔ (a ∉ seen) := by
            simp [List.mem_cons, hax]
          rw [List.mem_cons, mem_dedupFSAux a xs (x :: seen), hns,
            List.mem_cons]
          simp [hax]

theorem mem_dedupFS {a : String} {l : List String} :
    a ∈ dedupFS l ↔ a ∈ l := by
  rw [dedupFS, mem_dedupFSAux]
  simp

theorem nodup_dedupFSAux : ∀ (l seen : List String), (dedupFSAux seen l).Nodup
  | [], _ => List.nodup_nil
  | x :: xs, seen => by
      simp only [dedupFSAux]
      split
      · exact nodup_dedupFSAux xs seen
      · rw [List.nodup_cons]
        refine ⟨?_, nodup_dedupFSAux xs (x :: seen)⟩
        intro hmem
        rcases (mem_dedupFSAux x xs (x :: seen)).mp hmem with ⟨-, h2⟩
        exact h2 (List.mem_cons_self x seen)

theorem nodup_dedupFS (l : List String) : (dedupFS l).Nodup :=
  nodup_dedupFSAux l []

theorem mem_sortedSet {a : String} {l : List String} :
    a ∈ sortedSet l ↔ a ∈ l := by
  rw [sortedSet, mem_sortStr, mem_dedupFS]

/-- `sortedSet` output is strictly increasing in the code-point order:
sorted ascending with no duplicates. -/
theorem sortedSet_strict_sorted (l : List String) :
    (sortedSet l).Pairwise (fun a b => strLt a b = true) := by
  have h1 := pairwise_le_sortStr (dedupFS l)
  have h2 : (sortStr (dedupFS l)).Nodup := nodup_sortStr (nodup_dedupFS l)
  have h3 := List.Pairwise.and h1 h2
  refine h3.imp ?_
  rintro a b ⟨hle, hne⟩
  cases hab : strLt a b with
  | true => rfl
  | false => exact absurd (strLt_connex hab hle) hne

theorem sortedSet_ne_nil {l : List String} (h : l ≠ []) : sortedSet l ≠ [] := by
  intro hs
  cases l with
  | nil => exact h rfl
  | cons x xs =>
      have hm : x ∈ sortedSet (x :: xs) :=
        mem_sortedSet.mpr (List.mem_cons_self x xs)
      rw [hs] at hm
      cases hm

/-! ## First-seen grouping order, specified as an ordered-map fold -/

/-- Modelled from the spec: "group by first-seen key, preserve insertion
order ... implemented with an explicit ordered map": one left fold that
appends each key the first time it is met. -/
def firstSeenFold (l : List String) : List String :=
  l.foldl (fun acc x => if x ∈ acc then acc else acc ++ [x]) []

theorem dedupFSAux_congr :
    ∀ (l seen₁ seen₂ : List String),
      (∀ a, a ∈ seen₁ ↔ a ∈ seen₂) →
      dedupFSAux seen₁ l = dedupFSAux seen₂ l
  | [], _, _, _ => rfl
  | x :: xs, seen₁, seen₂, h => by
      simp only [dedupFSAux]
      by_cases hx : x ∈ seen₁
      · rw [if_pos hx, if_pos ((h x).mp hx)]
        exact dedupFSAux_congr xs seen₁ seen₂ h
      · rw [if_neg hx, if_neg (fun hx2 => hx ((h x).mpr hx2))]
        refine congrArg (x :: ·) ?_
        refine dedupFSAux_congr xs (x :: seen₁) (x :: seen₂) ?_
        intro a
        simp [List.mem_cons, h a]

theorem foldl_firstSeen_eq :
    ∀ (l acc : List String),
      l.foldl (fun acc x => if x ∈ acc then acc else acc ++ [x]) acc =
        acc ++ dedupFSAux acc l
  | [], acc => by simp [dedupFSAux]
  | x :: xs, acc => by
      simp only [List.foldl_cons, dedupFSAux]
      by_cases hx : x ∈ acc
      · rw [if_pos hx, if_pos hx]
        exact foldl_firstSeen_eq xs acc
      · rw [if_neg hx, if_neg hx, foldl_firstSeen_eq xs (acc ++ [x])]
        rw [dedupFSAux_congr xs (acc ++ [x]) (x :: acc)
          (by intro a; simp [List.mem_cons, List.mem_append, or_comm])]
        simp

/-- The implementation's first-seen deduplication equals the ordered-map
fold the spec describes. -/
theorem dedupFS_eq_firstSeenFold (l : List String) :
    dedupFS l = firstSeenFold l := by
  rw [firstSeenFold, foldl_firstSeen_eq l [], dedupFS]
  simp

/-! ## Maximum Bloom rank -/

/-- The maximum Bloom rank of a list of Bloom-level strings, as folded in
`determine_proficiency_levels` (0 when the list is empty). -/
def maxRank (l : List String) : Nat :=
  (l.map bloomRank).foldl Nat.max 0

/-- Modelled from the spec: the proficiency list as a function of the
maximum observed Bloom rank only. -/
def profOfMax (n : Nat) : List String :=
  if n ≤ 2 then ["Beginner"]
  else if n ≤ 4 then ["Beginner", "Intermediate"]
  else ["Beginner", "Intermediate", "Advanced"]

theorem determine_proficiency_levels_eq (blooms : List String) :
    determine_proficiency_levels blooms = profOfMax (maxRank blooms) := rfl

theorem foldl_max_init (a : Nat) :
    ∀ L : List Nat, L.foldl Nat.max a = Nat.max a (L.foldl Nat.max 0)
  | [] => by simp
  | x :: xs => by
      simp only [List.foldl_cons]
      rw [foldl_max_init (Nat.max a x) xs, foldl_max_init (Nat.max 0 x) xs]
      simp [Nat.max_assoc, Nat.zero_max]

theorem maxRank_le_iff {l : List String} {n : Nat} :
    maxRank l ≤ n ↔ ∀ x ∈ l, bloomRank x ≤ n := by
  induction l with
  | nil => simp [maxRank]
  | cons x xs ih =>
      rw [maxRank, List.map_cons, List.foldl_cons,
        foldl_max_init (Nat.max 0 (bloomRank x))]
      simp only [Nat.zero_max, Nat.max_le]
      rw [show (List.foldl Nat.max 0 (xs.map bloomRank)) = maxRank xs from rfl]
      simp [ih]

theorem le_maxRank {l : List String} {x : String} (h : x ∈ l) :
    bloomRank x ≤ maxRank l :=
  maxRank_le_iff.mp (Nat.le_refl _) x h

theorem maxRank_congr_mem {l₁ l₂ : List String}
    (h : ∀ x, x ∈ l₁ ↔ x ∈ l₂) : maxRank l₁ = maxRank l₂ := by
  refine Nat.le_antisymm ?_ ?_
  · exact maxRank_le_iff.mpr (fun x hx => le_maxRank ((h x).mp hx))
  · exact maxRank_le_iff.mpr (fun x hx => le_maxRank ((h x).mpr hx))

theorem maxRank_sortedSet (l : List String) :
    maxRank (sortedSet l) = maxRank l :=
  maxRank_congr_mem (fun _ => mem_sortedSet)

/-! ## Claim theorems -/

/-- C9: the classifier on the empty outcome string returns exactly one
fallback record: category `General`, skill_type `General Competency`,
empty skill name, empty description, Bloom level `Apply` (the default, as
no verb list matches the empty text) and an empty keyword list. -/
theorem empty_outcome_single_general_record (level : Int)
    (module_code : String) :
    extract_skills_from_outcome "" level module_code =
      [{ skill_name := some ""
         description := some ""
         category := some "General"
         skill_type := some "General Competency"
         blooms_level := some "Apply"
         keywords := some []
         module := some module_code }] := rfl

/-- Modelled from the spec: the main-skill name — trim whitespace; under
60 characters use the trimmed text verbatim; otherwise take the clause up
to the first comma or semicolon, whichever comes first; use it when under
80 characters; otherwise `"{context} - {first 40 chars}..."`. -/
def extract_main_skill_spec (outcome context : String) : String :=
  let t := pyStrip outcome
  if pyLen t < 60 then t
  else
    let clause := String.mk (t.data.takeWhile (fun c => ¬(c = ',' ∨ c = ';')))
    if pyLen clause < 80 then clause
    else context ++ " - " ++ pyTake 40 t ++ "..."

theorem takeWhile_comma_semi :
    ∀ l : List Char,
      (l.takeWhile (fun c => c ≠ ',')).takeWhile (fun c => c ≠ ';') =
        l.takeWhile (fun c => ¬(c = ',' ∨ c = ';'))
  | [] => rfl
  | c :: cs => by
      simp only [List.takeWhile_cons]
      by_cases hc : c = ','
      · subst hc
        simp
      · by_cases hs : c = ';'
        · subst hs
          simp
        · have ih := takeWhile_comma_semi cs
          simp only [decide_not, Bool.decide_or, Bool.not_or] at ih
          simp [hc, hs, ih]

/-- C7: the main-skill-name computation matches the spec's description of
it (strip; verbatim under 60 chars; else first clause up to the earliest
comma/semicolon when under 80 chars; else context plus first 40 chars plus
an ellipsis). -/
theorem extract_main_skill_matches_spec (outcome context : String) :
    extract_main_skill outcome context =
      extract_main_skill_spec outcome context := by
  unfold extract_main_skill extract_main_skill_spec
  simp only [takeWhile_comma_semi]

/-- The Bloom priority table, in the order the six checks occur in the
source. -/
def bloomTable : List (List String × String) :=
  [(rememberVerbs, "Remember"), (understandVerbs, "Understand"),
   (applyVerbs, "Apply"), (analyzeVerbs, "Analyze"),
   (evaluateVerbs, "Evaluate"), (createVerbs, "Create")]

/-- Modelled from the spec: the first level of the priority table whose
verb list matches, defaulting to `Apply`. -/
def blooms_level_spec (text : String) : String :=
  ((bloomTable.find? (fun p => p.1.any (fun v => strContains text v))).map
    Prod.snd).getD "Apply"

/-- C2: the Bloom level is the first match over the six verb lists in the
fixed priority order with default `Apply`; it is computed once per outcome
(every record of one outcome carries the same level, that of the
lower-cased outcome); and an outcome containing both a Remember-verb and a
Create-verb is classified `Remember`. -/
theorem blooms_priority_once_default :
    (∀ text : String, determine_blooms_level text = blooms_level_spec text) ∧
    (∀ (outcome : String) (level : Int) (module_code : String),
      ∀ s ∈ extract_skills_from_outcome outcome level module_code,
        s.blooms_level = some (determine_blooms_level (strLower outcome))) ∧
    (∀ outcome : String,
      (∃ v ∈ rememberVerbs, strContains (strLower outcome) v = true) →
      (∃ v ∈ createVerbs, strContains (strLower outcome) v = true) →
      determine_blooms_level (strLower outcome) = "Remember") := by
  refine ⟨?_, ?_, ?_⟩
  · intro text
    unfold determine_blooms_level blooms_level_spec bloomTable
    cases h1 : rememberVerbs.any (fun v => strContains text v) with
    | true => simp [List.find?_cons, h1]
    | false =>
    cases h2 : understandVerbs.any (fun v => strContains text v) with
    | true => simp [List.find?_cons, h1, h2]
    | false =>
    cases h3 : applyVerbs.any (fun v => strContains text v) with
    | true => simp [List.find?_cons, h1, h2, h3]
    | false =>
    cases h4 : analyzeVerbs.any (fun v => strContains text v) with
    | true => simp [List.find?_cons, h1, h2, h3, h4]
    | false =>
    cases h5 : evaluateVerbs.any (fun v => strContains text v) with
    | true => simp [List.find?_cons, h1, h2, h3, h4, h5]
    | false =>
    cases h6 : createVerbs.any (fun v => strContains text v) with
    | true => simp [List.find?_cons, h1, h2, h3, h4, h5, h6]
    | false => simp [List.find?_cons, h1, h2, h3, h4, h5, h6]
  · intro outcome level module_code s hs
    have step : ∀ (c : Bool) (L : List SkillRec) (r : SkillRec),
        (∀ t ∈ L, t.blooms_level =
          some (determine_blooms_level (strLower outcome))) →
        r.blooms_level = some (determine_blooms_level (strLower outcome)) →
        ∀ t ∈ condAppend c L r, t.blooms_level =
          some (determine_blooms_level (strLower outcome)) := by
      intro c L r hL hr t ht
      cases c with
      | false => exact hL t ht
      | true =>
          rcases List.mem_append.mp ht with h' | h'
          · exact hL t h'
          · rw [List.mem_singleton.mp h']
            exact hr
    simp only [extract_skills_from_outcome] at hs
    revert s hs
    split
    · intro s hs
      rw [List.mem_singleton.mp hs]
    · exact step _ _ _ (step _ _ _ (step _ _ _ (step _ _ _ (step _ _ _
        (step _ _ _ (step _ _ _ (step _ _ _ (by intro t ht; cases ht)
          rfl) rfl) rfl) rfl) rfl) rfl) rfl) rfl
  · intro outcome hrem _
    obtain ⟨v, hv, hcv⟩ := hrem
    have h1 : rememberVerbs.any (fun v => strContains (strLower outcome) v)
        = true := List.any_eq_true.mpr ⟨v, hv, hcv⟩
    unfold determine_blooms_level
    rw [if_pos h1]

/-- Witness for C2 at a concrete outcome containing both a Remember verb
(`define`) and a Create verb (`create`). -/
theorem blooms_priority_once_default_witness :
    determine_blooms_level (strLower "Define and create a data model.") =
      "Remember" :=
  blooms_priority_once_default.2.2 "Define and create a data model."
    ⟨"define", by decide, by decide⟩ ⟨"create", by decide, by decide⟩

/-- No keyword of any of the eight rule trigger sets occurs in the
lower-cased outcome. -/
def noRuleFires (outcome : String) : Prop :=
  ∀ ws ∈ [progTrigger, designTrigger, understandTrigger, analysisTrigger,
      architectureTrigger, theoryTrigger, problemTrigger, dataTrigger],
    ∀ w ∈ ws, strContains (strLower outcome) w = false

/-- C1: the classifier always returns at least one record; and on an
outcome firing none of the eight keyword rules it returns exactly the one
fallback record — category `General`, skill_type `General Competency`,
skill name the first 50 characters of the raw outcome. -/
theorem classifier_total_and_general_fallback :
    (∀ (outcome : String) (level : Int) (module_code : String),
        extract_skills_from_outcome outcome level module_code ≠ []) ∧
    (∀ (outcome : String) (level : Int) (module_code : String),
        noRuleFires outcome →
        extract_skills_from_outcome outcome level module_code =
          [{ skill_name := some (pyTake 50 outcome)
             description := some (pyTake 100 outcome)
             category := some "General"
             skill_type := some "General Competency"
             blooms_level := some (determine_blooms_level (strLower outcome))
             keywords := some []
             module := some module_code }]) := by
  constructor
  · intro outcome level module_code
    simp only [extract_skills_from_outcome]
    split
    · simp
    · rename_i h
      simp only [List.isEmpty_iff] at h
      exact h
  · intro outcome level module_code h
    have hfire : ∀ ws ∈ [progTrigger, designTrigger, understandTrigger,
        analysisTrigger, architectureTrigger, theoryTrigger, problemTrigger,
        dataTrigger],
        ws.any (fun w => strContains (strLower outcome) w) = false := by
      intro ws hws
      rw [List.any_eq_false]
      intro w hw
      simp [h ws hws w hw]
    simp only [extract_skills_from_outcome,
      hfire progTrigger (by simp), hfire designTrigger (by simp),
      hfire understandTrigger (by simp), hfire analysisTrigger (by simp),
      hfire architectureTrigger (by simp), hfire theoryTrigger (by simp),
      hfire problemTrigger (by simp), hfire dataTrigger (by simp),
      condAppend]
    simp

/-- Witness for C1's fallback clause at an outcome containing no rule
keyword. -/
theorem classifier_total_and_general_fallback_witness :
    extract_skills_from_outcome "Juggling." 0 "M" =
      [{ skill_name := some "Juggling."
         description := some "Juggling."
         category := some "General"
         skill_type := some "General Competency"
         blooms_level := some "Apply"
         keywords := some []
         module := some "M" }] :=
  (classifier_total_and_general_fallback.2 "Juggling." 0 "M"
    (by unfold noRuleFires; decide)).trans (by decide)

/-- C3: each consolidated record's proficiency list is a function of the
maximum Bloom rank observed in its exact-name group alone (mapping
Remember=1 … Create=6; max ≤ 2 → Beginner, ≤ 4 → +Intermediate,
≥ 5 → +Advanced); and the spec's concrete scenario — `Programming`
observed in COMP101/COMP201 at {Apply, Analyze} — consolidates to
`[Beginner, Intermediate]` over modules `[COMP101, COMP201]`. -/
theorem consolidated_proficiency_from_max_rank :
    (∀ (skills : List SkillRec) (c : ConsolidatedSkill),
        c ∈ consolidate_similar_skills skills →
        c.proficiency_levels =
          profOfMax (maxRank
            ((skills.filter (fun s => recName s == c.name)).map recBloom))) ∧
    (consolidate_similar_skills
        [{ skill_name := some "Programming", description := some "d1",
           category := some "Technical", skill_type := some "Programming",
           blooms_level := some "Apply", keywords := some [],
           module := some "COMP101" },
         { skill_name := some "Programming", description := some "d2",
           category := some "Technical", skill_type := some "Programming",
           blooms_level := some "Analyze", keywords := some [],
           module := some "COMP201" }] =
      [{ name := "Programming",
         proficiency_levels := ["Beginner", "Intermediate"],
         appears_in_modules := ["COMP101", "COMP201"],
         bloom_levels := ["Analyze", "Apply"] }]) := by
  constructor
  · intro skills c hc
    simp only [consolidate_similar_skills] at hc
    obtain ⟨name, hname, rfl⟩ := List.mem_map.mp hc
    simp only [determine_proficiency_levels_eq, maxRank_sortedSet]
  · decide

/-- Witness for C3's general clause at the scenario input. -/
theorem consolidated_proficiency_from_max_rank_witness :
    ({ name := "Programming",
       proficiency_levels := ["Beginner", "Intermediate"],
       appears_in_modules := ["COMP101", "COMP201"],
       bloom_levels := ["Analyze", "Apply"] } :
      ConsolidatedSkill).proficiency_levels =
      profOfMax (maxRank
        (([{ skill_name := some "Programming", description := some "d1",
             category := some "Technical", skill_type := some "Programming",
             blooms_level := some "Apply", keywords := some [],
             module := some "COMP101" },
           { skill_name := some "Programming", description := some "d2",
             category := some "Technical", skill_type := some "Programming",
             blooms_level := some "Analyze", keywords := some [],
             module := some "COMP201" }].filter
            (fun s => recName s == "Programming")).map recBloom)) :=
  consolidated_proficiency_from_max_rank.1 _ _ (by decide)

/-- C4: the consolidator emits one record per distinct skill name in
first-occurrence order (the ordered-map fold over the input names), and in
each record `appears_in_modules` and `bloom_levels` are strictly
ascending, duplicate-free listings of exactly the modules / Bloom levels
contributed by that record's exact-name group. -/
theorem consolidator_groups_by_exact_name :
    (∀ skills : List SkillRec,
      (consolidate_similar_skills skills).map ConsolidatedSkill.name =
        firstSeenFold (skills.map recName)) ∧
    (∀ (skills : List SkillRec) (c : ConsolidatedSkill),
      c ∈ consolidate_similar_skills skills →
      (c.appears_in_modules.Pairwise (fun a b => strLt a b = true) ∧
       ∀ m, m ∈ c.appears_in_modules ↔
         m ∈ (skills.filter (fun s => recName s == c.name)).map recModule) ∧
      (c.bloom_levels.Pairwise (fun a b => strLt a b = true) ∧
       ∀ b, b ∈ c.bloom_levels ↔
         b ∈ (skills.filter (fun s => recName s == c.name)).map recBloom)) := by
  constructor
  · intro skills
    simp only [consolidate_similar_skills, List.map_map, Function.comp]
    rw [← dedupFS_eq_firstSeenFold]
    exact List.map_id _
  · intro skills c hc
    simp only [consolidate_similar_skills] at hc
    obtain ⟨name, hname, rfl⟩ := List.mem_map.mp hc
    exact ⟨⟨sortedSet_strict_sorted _, fun m => mem_sortedSet⟩,
      ⟨sortedSet_strict_sorted _, fun b => mem_sortedSet⟩⟩

/-- Input for the C4 witness: three records, two distinct names, given
out of alphabetical order. -/
def c4WitnessInput : List SkillRec :=
  [{ skill_name := some "Zeta", description := some "",
     category := some "Technical", skill_type := some "Programming",
     blooms_level := some "Create", keywords := some [],
     module := some "M2" },
   { skill_name := some "Alpha", description := some "",
     category := some "Technical", skill_type := some "Programming",
     blooms_level := some "Apply", keywords := some [],
     module := some "M1" },
   { skill_name := some "Zeta", description := some "",
     category := some "Technical", skill_type := some "Programming",
     blooms_level := some "Remember", keywords := some [],
     module := some "M1" }]

/-- Witness for C4 at a three-record input with two distinct names given
out of alphabetical order. -/
theorem consolidator_groups_by_exact_name_witness :
    ((consolidate_similar_skills c4WitnessInput).map ConsolidatedSkill.name =
      firstSeenFold (c4WitnessInput.map recName)) ∧
    (({ name := "Zeta", proficiency_levels :=
          ["Beginner", "Intermediate", "Advanced"],
        appears_in_modules := ["M1", "M2"],
        bloom_levels := ["Create", "Remember"] } :
        ConsolidatedSkill).appears_in_modules.Pairwise
          (fun a b => strLt a b = true)) :=
  ⟨consolidator_groups_by_exact_name.1 c4WitnessInput,
   ((consolidator_groups_by_exact_name.2 c4WitnessInput _ (by decide)).1).1⟩

/-- C5: the taxonomy builder groups by category and then skill_type in
first-encounter order over one scan, each bucket's skills list is the
consolidator applied to exactly that (category, skill_type) bucket, and
every description is the fixed template string. -/
theorem taxonomy_two_level_grouping :
    (∀ all_skills : List SkillRec,
      (build_taxonomy_structure all_skills).domains.map Domain.name =
        firstSeenFold (all_skills.map recCategory)) ∧
    (∀ all_skills : List SkillRec,
      ∀ d ∈ (build_taxonomy_structure all_skills).domains,
      d.description = d.name ++ " competencies" ∧
      d.sub_categories.map SubCategory.name =
        firstSeenFold ((all_skills.filter
          (fun s => recCategory s == d.name)).map recSkillType) ∧
      ∀ sc ∈ d.sub_categories,
        sc.description = sc.name ++ " skills in " ++ d.name ++ " category" ∧
        sc.skills = consolidate_similar_skills (all_skills.filter
          (fun s => recCategory s == d.name && recSkillType s == sc.name))) := by
  constructor
  · intro all_skills
    simp only [build_taxonomy_structure, List.map_map, Function.comp]
    rw [← dedupFS_eq_firstSeenFold]
    exact List.map_id _
  · intro all_skills d hd
    simp only [build_taxonomy_structure] at hd
    obtain ⟨category, hcat, rfl⟩ := List.mem_map.mp hd
    refine ⟨rfl, ?_, ?_⟩
    · simp only [List.map_map, Function.comp]
      rw [← dedupFS_eq_firstSeenFold]
      exact List.map_id _
    · intro sc hsc
      obtain ⟨ty, hty, rfl⟩ := List.mem_map.mp hsc
      refine ⟨rfl, ?_⟩
      show consolidate_similar_skills _ = consolidate_similar_skills _
      refine congrArg _ ?_
      rw [List.filter_filter]
      exact List.filter_congr (fun s _ => Bool.and_comm _ _)

/-- Witness for C5 at a two-record input spanning two categories. -/
theorem taxonomy_two_level_grouping_witness :
    let skills : List SkillRec :=
      [{ skill_name := some "S1", description := some "",
         category := some "Technical", skill_type := some "Programming",
         blooms_level := some "Apply", keywords := some [],
         module := some "M1" },
       { skill_name := some "S2", description := some "",
         category := some "Cognitive", skill_type := some "Comprehension",
         blooms_level := some "Understand", keywords := some [],
         module := some "M1" }]
    ∀ d ∈ (build_taxonomy_structure skills).domains,
      d.description = d.name ++ " competencies" :=
  fun d hd => ((taxonomy_two_level_grouping.2 _ d hd).1)

/-! ## Extractor lemmas for C6 -/

theorem analyzeGo_base : ∀ modules : List ModuleRec,
    (analyzeGo modules).1.map EnrichedModule.base =
      modules.filter (fun m => !(m.learning_outcomes.getD []).isEmpty)
  | [] => rfl
  | m :: rest => by
      simp only [analyzeGo, List.filter_cons]
      cases hm : (m.learning_outcomes.getD []).isEmpty with
      | true => simpa [hm] using analyzeGo_base rest
      | false => simpa [hm] using analyzeGo_base rest

theorem analyzeGo_skills : ∀ modules : List ModuleRec,
    (analyzeGo modules).2 =
      ((modules.filter (fun m => !(m.learning_outcomes.getD []).isEmpty)).map
        moduleSkills).flatten
  | [] => rfl
  | m :: rest => by
      simp only [analyzeGo, List.filter_cons]
      cases hm : (m.learning_outcomes.getD []).isEmpty with
      | true => simpa [hm] using analyzeGo_skills rest
      | false => simpa [hm] using analyzeGo_skills rest

/-- C6: the extractor drops modules with no (or absent) learning outcomes
from the enriched output; `total_modules` counts the retained modules;
`total_skills` is the length of the flat skill list and equals the sum,
over retained modules and their outcomes, of the number of records the
classifier produces per outcome. -/
theorem extractor_skips_empty_and_counts (modules : List ModuleRec) :
    ((analyze_learning_outcomes_direct modules).modules.map
        EnrichedModule.base =
      modules.filter (fun m => !(m.learning_outcomes.getD []).isEmpty)) ∧
    ((analyze_learning_outcomes_direct modules).total_modules =
      (analyze_learning_outcomes_direct modules).modules.length) ∧
    ((analyze_learning_outcomes_direct modules).total_skills =
      (analyze_learning_outcomes_direct modules).all_skills.length) ∧
    ((analyze_learning_outcomes_direct modules).total_skills =
      ((modules.filter (fun m => !(m.learning_outcomes.getD []).isEmpty)).map
        (fun m => ((m.learning_outcomes.getD []).map (fun o =>
          (extract_skills_from_outcome o (m.level.getD 0)
            (m.code.getD "Unknown")).length)).sum)).sum) := by
  refine ⟨analyzeGo_base modules, rfl, rfl, ?_⟩
  show (analyzeGo modules).2.length = _
  rw [analyzeGo_skills]
  rw [List.length_flatten, List.map_map]
  refine congrArg List.sum (List.map_congr_left ?_)
  intro m _
  simp [moduleSkills, List.length_flatten, List.map_map, Function.comp_def]

/-! ## C10: consolidator behaviour on missing / unrecognised fields -/

/-- The six Bloom level names, keys of the source's `blooms_hierarchy`. -/
def bloomNames : List String :=
  ["Remember", "Understand", "Apply", "Analyze", "Evaluate", "Create"]

theorem bloomRank_of_not_mem {b : String} (h : b ∉ bloomNames) :
    bloomRank b = 3 := by
  simp only [bloomNames, List.mem_cons, List.not_mem_nil, or_false,
    not_or] at h
  obtain ⟨h1, h2, h3, h4, h5, h6⟩ := h
  simp [bloomRank, h1, h2, h3, h4, h5, h6]

/-- C10: the consolidator is total on records with missing fields — a
missing `skill_name`, `module` or `blooms_level` defaults to `Unknown`
(so such records are grouped under the name `Unknown`); any string that is
not one of the six Bloom names ranks 3; hence a group observing only
unrecognised Bloom levels consolidates to `[Beginner, Intermediate]`. -/
theorem consolidator_unknown_defaults :
    (∀ s : SkillRec,
      (s.skill_name = none → recName s = "Unknown") ∧
      (s.module = none → recModule s = "Unknown") ∧
      (s.blooms_level = none → recBloom s = "Unknown")) ∧
    (∀ b : String, b ∉ bloomNames → bloomRank b = 3) ∧
    (∀ skills : List SkillRec,
      (∀ s ∈ skills, recBloom s ∉ bloomNames) →
      ∀ c ∈ consolidate_similar_skills skills,
        c.proficiency_levels = ["Beginner", "Intermediate"]) := by
  refine ⟨?_, fun b h => bloomRank_of_not_mem h, ?_⟩
  · intro s
    refine ⟨fun h => ?_, fun h => ?_, fun h => ?_⟩ <;>
      simp [recName, recModule, recBloom, h]
  · intro skills h c hc
    simp only [consolidate_similar_skills] at hc
    obtain ⟨name, hname, rfl⟩ := List.mem_map.mp hc
    simp only [determine_proficiency_levels_eq, maxRank_sortedSet]
    obtain ⟨s₀, hs₀, hs₀name⟩ :=
      List.mem_map.mp (mem_dedupFS.mp hname)
    have hs₀f : s₀ ∈ skills.filter (fun s => recName s == name) :=
      List.mem_filter.mpr ⟨hs₀, by simp [hs₀name]⟩
    have hmem : recBloom s₀ ∈
        (skills.filter (fun s => recName s == name)).map recBloom :=
      List.mem_map_of_mem recBloom hs₀f
    have hup : maxRank
        ((skills.filter (fun s => recName s == name)).map recBloom) ≤ 3 := by
      rw [maxRank_le_iff]
      intro x hx
      obtain ⟨s, hs, rfl⟩ := List.mem_map.mp hx
      rw [bloomRank_of_not_mem (h s (List.mem_filter.mp hs).1)]
    have hlo : 3 ≤ maxRank
        ((skills.filter (fun s => recName s == name)).map recBloom) := by
      have := le_maxRank hmem
      rwa [bloomRank_of_not_mem
        (h s₀ hs₀)] at this
    have hmax : maxRank
        ((skills.filter (fun s => recName s == name)).map recBloom) = 3 :=
      Nat.le_antisymm hup hlo
    rw [hmax]
    rfl

/-- Witness for C10 at a single record with every field missing, and an
unrecognised Bloom string. -/
theorem consolidator_unknown_defaults_witness :
    bloomRank "Invent" = 3 ∧
    ({ name := "Unknown", proficiency_levels := ["Beginner", "Intermediate"],
       appears_in_modules := ["Unknown"], bloom_levels := ["Unknown"] } :
      ConsolidatedSkill).proficiency_levels = ["Beginner", "Intermediate"] :=
  ⟨consolidator_unknown_defaults.2.1 "Invent" (by decide),
   consolidator_unknown_defaults.2.2
     [{ skill_name := none, description := none, category := none,
        skill_type := none, blooms_level := none, keywords := none,
        module := none }] (by decide) _ (by decide)⟩

/-! ## C8: the persisted JSON document and its round trip

`main()` dumps `{taxonomy, modules, total_skills, total_modules}` with
`json.dump` and the pipeline re-loads it with `json.load`.  JSON values
are embedded as a tree; serialising a pipeline result builds the tree
whose objects carry exactly the keys the Python dictionaries carry (a key
is present iff the `Option` field is present), and re-loading reads keys
by name, so object key order is insignificant. -/

inductive Json where
  | str : String → Json
  | num : Int → Json
  | arr : List Json → Json
  | obj : List (String × Json) → Json

/-- Object lookup by key name (first match), as `json.load` + `dict[k]`
semantics: position independent. -/
def getKey (k : String) : List (String × Json) → Option Json
  | [] => none
  | (k', v) :: rest => if k' = k then some v else getKey k rest

def asStr : Json → Option String
  | Json.str s => some s
  | _ => none

def asInt : Json → Option Int
  | Json.num i => some i
  | _ => none

def asNat : Json → Option Nat
  | Json.num i => if 0 ≤ i then some i.toNat else none
  | _ => none

def decList {α : Type} (f : Json → Option α) : List Json → Option (List α)
  | [] => some []
  | j :: js =>
      match f j, decList f js with
      | some a, some as => some (a :: as)
      | _, _ => none

def asArr {α : Type} (f : Json → Option α) : Json → Option (List α)
  | Json.arr js => decList f js
  | _ => none

/-- Decode an optional object member: an absent key is an absent field, a
present key must parse. -/
def decOptField {α : Type} (f : Json → Option α) :
    Option Json → Option (Option α)
  | none => some none
  | some j => (f j).map some

/-- A key/value singleton for a present `Option` field, nothing for an
absent one. -/
def optField (k : String) : Option Json → List (String × Json)
  | none => []
  | some j => [(k, j)]

def encStrList (l : List String) : Json := Json.arr (l.map Json.str)

def encodeSkill (s : SkillRec) : Json :=
  Json.obj
    (optField "skill_name" (s.skill_name.map Json.str) ++
     optField "description" (s.description.map Json.str) ++
     optField "category" (s.category.map Json.str) ++
     optField "skill_type" (s.skill_type.map Json.str) ++
     optField "blooms_level" (s.blooms_level.map Json.str) ++
     optField "keywords" (s.keywords.map encStrList) ++
     optField "module" (s.module.map Json.str))

def decodeSkill : Json → Option SkillRec
  | Json.obj kvs =>
      (decOptField asStr (getKey "skill_name" kvs)).bind fun sn =>
      (decOptField asStr (getKey "description" kvs)).bind fun d =>
      (decOptField asStr (getKey "category" kvs)).bind fun c =>
      (decOptField asStr (getKey "skill_type" kvs)).bind fun st =>
      (decOptField asStr (getKey "blooms_level" kvs)).bind fun bl =>
      (decOptField (asArr asStr) (getKey "keywords" kvs)).bind fun kw =>
      (decOptField asStr (getKey "module" kvs)).bind fun md =>
      some ⟨sn, d, c, st, bl, kw, md⟩
  | _ => none

def encodeEnriched (em : EnrichedModule) : Json :=
  Json.obj
    (optField "code" (em.base.code.map Json.str) ++
     optField "title" (em.base.title.map Json.str) ++
     optField "level" (em.base.level.map Json.num) ++
     optField "learning_outcomes" (em.base.learning_outcomes.map encStrList) ++
     [("extracted_skills", Json.arr (em.extracted_skills.map encodeSkill))])

def decodeEnriched : Json → Option EnrichedModule
  | Json.obj kvs =>
      (decOptField asStr (getKey "code" kvs)).bind fun code =>
      (decOptField asStr (getKey "title" kvs)).bind fun title =>
      (decOptField asInt (getKey "level" kvs)).bind fun level =>
      (decOptField (asArr asStr)
        (getKey "learning_outcomes" kvs)).bind fun lo =>
      ((getKey "extracted_skills" kvs).bind (asArr decodeSkill)).bind fun sks =>
      some ⟨⟨code, title, level, lo⟩, sks⟩
  | _ => none

def encodeConsolidated (c : ConsolidatedSkill) : Json :=
  Json.obj
    [("name", Json.str c.name),
     ("proficiency_levels", encStrList c.proficiency_levels),
     ("appears_in_modules", encStrList c.appears_in_modules),
     ("bloom_levels", encStrList c.bloom_levels)]

def decodeConsolidated : Json → Option ConsolidatedSkill
  | Json.obj kvs =>
      ((getKey "name" kvs).bind asStr).bind fun name =>
      ((getKey "proficiency_levels" kvs).bind (asArr asStr)).bind fun pl =>
      ((getKey "appears_in_modules" kvs).bind (asArr asStr)).bind fun am =>
      ((getKey "bloom_levels" kvs).bind (asArr asStr)).bind fun bl =>
      some ⟨name, pl, am, bl⟩
  | _ => none

def encodeSubCategory (sc : SubCategory) : Json :=
  Json.obj
    [("name", Json.str sc.name),
     ("description", Json.str sc.description),
     ("skills", Json.arr (sc.skills.map encodeConsolidated))]

def decodeSubCategory : Json → Option SubCategory
  | Json.obj kvs =>
      ((getKey "name" kvs).bind asStr).bind fun name =>
      ((getKey "description" kvs).bind asStr).bind fun desc =>
      ((getKey "skills" kvs).bind (asArr decodeConsolidated)).bind fun sk =>
      some ⟨name, desc, sk⟩
  | _ => none

def encodeDomain (d : Domain) : Json :=
  Json.obj
    [("name", Json.str d.name),
     ("description", Json.str d.description),
     ("sub_categories", Json.arr (d.sub_categories.map encodeSubCategory))]

def decodeDomain : Json → Option Domain
  | Json.obj kvs =>
      ((getKey "name" kvs).bind asStr).bind fun name =>
      ((getKey "description" kvs).bind asStr).bind fun desc =>
      ((getKey "sub_categories" kvs).bind
        (asArr decodeSubCategory)).bind fun sc =>
      some ⟨name, desc, sc⟩
  | _ => none

def encodeTaxonomy (t : Taxonomy) : Json :=
  Json.obj [("domains", Json.arr (t.domains.map encodeDomain))]

def decodeTaxonomy : Json → Option Taxonomy
  | Json.obj kvs =>
      ((getKey "domains" kvs).bind (asArr decodeDomain)).bind fun ds =>
      some ⟨ds⟩
  | _ => none

/-- The persisted document of `main()`: top-level keys `taxonomy`,
`modules`, `total_skills`, `total_modules`. -/
structure ResultDoc where
  taxonomy : Taxonomy
  modules : List EnrichedModule
  total_skills : Nat
  total_modules : Nat

def encodeResult (r : ResultDoc) : Json :=
  Json.obj
    [("taxonomy", encodeTaxonomy r.taxonomy),
     ("modules", Json.arr (r.modules.map encodeEnriched)),
     ("total_skills", Json.num (Int.ofNat r.total_skills)),
     ("total_modules", Json.num (Int.ofNat r.total_modules))]

def decodeResult : Json → Option ResultDoc
  | Json.obj kvs =>
      ((getKey "taxonomy" kvs).bind decodeTaxonomy).bind fun t =>
      ((getKey "modules" kvs).bind (asArr decodeEnriched)).bind fun ms =>
      ((getKey "total_skills" kvs).bind asNat).bind fun ts =>
      ((getKey "total_modules" kvs).bind asNat).bind fun tm =>
      some ⟨t, ms, ts, tm⟩
  | _ => none

/-! ## Round-trip lemmas -/

theorem decList_map {α : Type} (f : Json → Option α) (enc : α → Json)
    (h : ∀ x, f (enc x) = some x) :
    ∀ l : List α, decList f (l.map enc) = some l
  | [] => rfl
  | x :: xs => by
      simp only [List.map_cons, decList, h x, decList_map f enc h xs]

theorem decList_encStr (l : List String) :
    decList asStr (l.map Json.str) = some l :=
  decList_map asStr Json.str (fun _ => rfl) l

theorem asArr_encStrList (l : List String) :
    asArr asStr (encStrList l) = some l := by
  simp [asArr, encStrList, decList_encStr]

theorem decodeSkill_encodeSkill (s : SkillRec) :
    decodeSkill (encodeSkill s) = some s := by
  obtain ⟨f1, f2, f3, f4, f5, f6, f7⟩ := s
  cases f1 <;> cases f2 <;> cases f3 <;> cases f4 <;> cases f5 <;>
    cases f6 <;> cases f7 <;>
    simp [encodeSkill, decodeSkill, optField, getKey, decOptField, asStr,
      asArr, decList_encStr, encStrList, Option.map, Option.bind]

theorem decodeEnriched_encodeEnriched (em : EnrichedModule) :
    decodeEnriched (encodeEnriched em) = some em := by
  obtain ⟨⟨f1, f2, f3, f4⟩, sks⟩ := em
  cases f1 <;> cases f2 <;> cases f3 <;> cases f4 <;>
    simp [encodeEnriched, decodeEnriched, optField, getKey, decOptField,
      asStr, asInt, asArr, decList_encStr, encStrList, Option.map,
      Option.bind, decList_map decodeSkill encodeSkill
        decodeSkill_encodeSkill]

theorem decodeConsolidated_encodeConsolidated (c : ConsolidatedSkill) :
    decodeConsolidated (encodeConsolidated c) = some c := by
  simp [encodeConsolidated, decodeConsolidated, getKey, asStr,
    asArr_encStrList, Option.bind]

theorem decodeSubCategory_encodeSubCategory (sc : SubCategory) :
    decodeSubCategory (encodeSubCategory sc) = some sc := by
  simp [encodeSubCategory, decodeSubCategory, getKey, asStr, asArr,
    Option.bind,
    decList_map decodeConsolidated encodeConsolidated
      decodeConsolidated_encodeConsolidated]

theorem decodeDomain_encodeDomain (d : Domain) :
    decodeDomain (encodeDomain d) = some d := by
  simp [encodeDomain, decodeDomain, getKey, asStr, asArr, Option.bind,
    decList_map decodeSubCategory encodeSubCategory
      decodeSubCategory_encodeSubCategory]

theorem decodeTaxonomy_encodeTaxonomy (t : Taxonomy) :
    decodeTaxonomy (encodeTaxonomy t) = some t := by
  simp [encodeTaxonomy, decodeTaxonomy, getKey, asArr, Option.bind,
    decList_map decodeDomain encodeDomain decodeDomain_encodeDomain]

/-- C8: serialising a pipeline result document to JSON and re-loading it
is lossless: decoding the encoded document recovers every field of the
taxonomy, the enriched modules and both totals (the decoder reads object
members by key name, so key order carries no meaning). -/
theorem result_json_round_trip (r : ResultDoc) :
    decodeResult (encodeResult r) = some r := by
  obtain ⟨t, ms, ts, tm⟩ := r
  simp [encodeResult, decodeResult, getKey, asNat, Option.bind,
    decodeTaxonomy_encodeTaxonomy, asArr,
    decList_map decodeEnriched encodeEnriched decodeEnriched_encodeEnriched]
